/-
Verification of the platformer repository against its specification.

The repository has two variants of the same arcade game:
  * src/game-loop.js — the endless-runner variant (camera scrolling,
    procedural platform generation, fall-based reset);
  * src/game.js — the fixed-screen variant (three static platforms,
    horizontal clamping, no reset).

JavaScript numbers are modelled as rationals (ℚ).  Calls to Math.random()
are modelled by threading an explicit list of samples: each call draws the
head of the list (0 when the list is exhausted — 0 is itself a legal
sample) and passes the tail on.  A list whose members all lie in [0, 1) is
a faithful supply of Math.random() results.

All definitions are transliterated from the two source files; comments on
each definition name the function it embeds.
-/
import Mathlib

/-- A platform rectangle, as stored in `this.platforms` in both files. -/
structure Platform where
  x : ℚ
  y : ℚ
  width : ℚ
  height : ℚ
deriving DecidableEq

/-- The player record of both files (`this.player`).  The endless variant
additionally stores `speed: 5` and `maxSpeed: 8`; `speed` is never
reassigned and is modelled by the constant `playerSpeed`, and `maxSpeed`
is never read. -/
structure Player where
  x : ℚ
  y : ℚ
  width : ℚ
  height : ℚ
  velocityX : ℚ
  velocityY : ℚ
  isJumping : Bool
deriving DecidableEq

/-- The input state of both files (`this.input`). -/
structure Input where
  left : Bool
  right : Bool
  jump : Bool
deriving DecidableEq

/-- `this.gravity = 0.5` in both files. -/
def gravity : ℚ := 0.5

/-- `this.jumpForce = -12` in both files. -/
def jumpForce : ℚ := -12

/-- `this.player.speed = 5` in src/game-loop.js (never reassigned). -/
def playerSpeed : ℚ := 5

/-- `this.moveSpeed = 5` in src/game.js. -/
def moveSpeed : ℚ := 5

/-- `this.minPlatformWidth = 100` in src/game-loop.js. -/
def minPlatformWidth : ℚ := 100

/-- `this.maxPlatformWidth = 300` in src/game-loop.js. -/
def maxPlatformWidth : ℚ := 300

/-- `this.minGapWidth = 100` in src/game-loop.js. -/
def minGapWidth : ℚ := 100

/-- `this.maxGapWidth = 200` in src/game-loop.js. -/
def maxGapWidth : ℚ := 200

/-- `this.platformHeight = 20` in src/game-loop.js. -/
def platformHeight : ℚ := 20

/-- One call to `Math.random()`: draw the head of the sample supply. -/
def draw (rs : List ℚ) : ℚ × List ℚ := (rs.headD 0, rs.tail)

/-- A legal supply of `Math.random()` samples: every member is in [0, 1). -/
def Bounded (rs : List ℚ) : Prop := ∀ r ∈ rs, 0 ≤ r ∧ r < 1

/-- `randomBetween(min, max)` of src/game-loop.js:
`Math.random() * (max - min) + min`. -/
def randomBetween (a b : ℚ) (rs : List ℚ) : ℚ × List ℚ :=
  ((draw rs).1 * (b - a) + a, (draw rs).2)

/-- `addNewPlatform(startX)` of src/game-loop.js: a random width, a random
y between 0.3 and 0.7 of the canvas height, height `platformHeight`.
Returns the pushed platform and the remaining sample supply. -/
def addNewPlatform (startX h : ℚ) (rs : List ℚ) : Platform × List ℚ :=
  let r1 := randomBetween minPlatformWidth maxPlatformWidth rs
  let r2 := randomBetween (h * 0.3) (h * 0.7) r1.2
  ({ x := startX, y := r2.1, width := r1.1, height := platformHeight }, r2.2)

/-- The `for` loop of `generateInitialPlatforms` in src/game-loop.js:
`n` iterations of `addNewPlatform(nextX)` followed by
`nextX += lastPlatform.width + randomBetween(minGapWidth, maxGapWidth)`
(the platform just pushed is the last one, and its `x` is `nextX`, so the
new `nextX` equals `nextX + width + gap`).  Returns the platforms pushed
by the loop, in push order. -/
def genLoop (h : ℚ) : ℚ → ℕ → List ℚ → List Platform × List ℚ
  | _, 0, rs => ([], rs)
  | nextX, n + 1, rs =>
    let r1 := addNewPlatform nextX h rs
    let r2 := randomBetween minGapWidth maxGapWidth r1.2
    let r3 := genLoop h (nextX + r1.1.width + r2.1) n r2.2
    (r1.1 :: r3.1, r3.2)

/-- `generateInitialPlatforms()` of src/game-loop.js: a ground platform
`{x: 0, y: h - 50, width: w * 2, height: 50}` followed by ten platforms
from the generation loop started at `nextX = canvas.width`. -/
def generateInitialPlatforms (w h : ℚ) (rs : List ℚ) : List Platform × List ℚ :=
  ({ x := 0, y := h - 50, width := w * 2, height := 50 } :: (genLoop h w 10 rs).1,
   (genLoop h w 10 rs).2)

/-- The body of the collision `for` loop, identical in
`checkCollisions` of src/game-loop.js and of src/game.js: an AABB overlap
test with four strict comparisons and, on overlap, the one-sided
top-landing rule (`velocityY > 0` and previous bottom edge at or above the
platform top snaps the player onto the platform and zeroes `velocityY`). -/
def collideStep (p : Player) (q : Platform) : Player :=
  if p.x < q.x + q.width ∧ p.x + p.width > q.x ∧
      p.y < q.y + q.height ∧ p.y + p.height > q.y then
    if p.velocityY > 0 ∧ p.y + p.height - p.velocityY ≤ q.y then
      { p with y := q.y - p.height, velocityY := 0, isJumping := false }
    else p
  else p

/-- `checkCollisions()` of both files: set `isJumping = true`, then run the
collision loop over the platform list. -/
def checkCollisions (p : Player) (ps : List Platform) : Player :=
  ps.foldl collideStep { p with isJumping := true }

/-- The endless-variant game state (src/game-loop.js): canvas size, camera
offset, distance score, player, platform list. -/
structure EGame where
  canvasW : ℚ
  canvasH : ℚ
  cameraX : ℚ
  distance : ℤ
  player : Player
  platforms : List Platform
deriving DecidableEq

/-- Velocity from input in src/game-loop.js (`input.right` tested first). -/
def velXOf (inp : Input) : ℚ :=
  if inp.right then playerSpeed else if inp.left then -playerSpeed else 0

/-- The jump branch of `update()` in both files: if the jump input is held
and the player is not airborne, set `velocityY = jumpForce`. -/
def jumpStep (inp : Input) (p : Player) : Player :=
  if inp.jump && !p.isJumping then
    { p with velocityY := jumpForce, isJumping := true }
  else p

/-- Movement, jumping, gravity and position integration of `update()` in
src/game-loop.js. -/
def movePlayer (inp : Input) (p : Player) : Player :=
  let vx := velXOf inp
  let p1 := jumpStep inp { p with velocityX := vx }
  let p2 := { p1 with velocityY := p1.velocityY + gravity }
  { p2 with x := p2.x + vx, y := p2.y + p2.velocityY }

/-- The camera block of `update()` in src/game-loop.js: when the player is
right of one third of the canvas, set `cameraX = player.x - canvas.width/3`
and `distance = Math.floor(cameraX / 100)`. -/
def cameraStep (g : EGame) : EGame :=
  if g.player.x > g.canvasW / 3 then
    { g with cameraX := g.player.x - g.canvasW / 3,
             distance := ⌊(g.player.x - g.canvasW / 3) / 100⌋ }
  else g

/-- The part of `update()` in src/game-loop.js before `updatePlatforms()`:
player kinematics followed by the camera block. -/
def integrate (inp : Input) (g : EGame) : EGame :=
  cameraStep { g with player := movePlayer inp g.player }

/-- The filter predicate of `updatePlatforms()`:
`platform.x + platform.width > this.cameraX - 300`. -/
def keepPred (cam : ℚ) (q : Platform) : Bool :=
  decide (q.x + q.width > cam - 300)

/-- `updatePlatforms()` of src/game-loop.js: drop platforms far behind the
camera, then, when the last remaining platform ends within
`cameraX + canvas.width + 500`, push one new platform a random gap after
it.  When the filter leaves no platform, the source dereferences
`undefined` (`lastPlatform.x` throws); that failure is `none`. -/
def updatePlatforms (g : EGame) (rs : List ℚ) : Option (EGame × List ℚ) :=
  let kept := g.platforms.filter (keepPred g.cameraX)
  match kept.getLast? with
  | none => none
  | some lastP =>
    if lastP.x + lastP.width < g.cameraX + g.canvasW + 500 then
      let r1 := randomBetween minGapWidth maxGapWidth rs
      let r2 := addNewPlatform (lastP.x + lastP.width + r1.1) g.canvasH r1.2
      some ({ g with platforms := kept ++ [r2.1] }, r2.2)
    else
      some ({ g with platforms := kept }, rs)

/-- `resetGame()` of src/game-loop.js: zero the camera and the score, put
the player back at the start position with zero velocity (`isJumping` is
not touched), and regenerate the platform list. -/
def resetGame (g : EGame) (rs : List ℚ) : EGame × List ℚ :=
  ({ g with cameraX := 0, distance := 0,
            player := { g.player with x := g.canvasW / 3, y := 100,
                                      velocityX := 0, velocityY := 0 },
            platforms := (generateInitialPlatforms g.canvasW g.canvasH rs).1 },
   (generateInitialPlatforms g.canvasW g.canvasH rs).2)

/-- `update()` of src/game-loop.js up to and including `checkCollisions()`
(everything except the final fall check). -/
def preReset (inp : Input) (g : EGame) (rs : List ℚ) : Option (EGame × List ℚ) :=
  match updatePlatforms (integrate inp g) rs with
  | none => none
  | some (g2, rs2) =>
    some ({ g2 with player := checkCollisions g2.player g2.platforms }, rs2)

/-- `update()` of src/game-loop.js: kinematics, camera, platform
maintenance, collisions, then `resetGame()` when the player fell below the
canvas. -/
def update (inp : Input) (g : EGame) (rs : List ℚ) : Option (EGame × List ℚ) :=
  match preReset inp g rs with
  | none => none
  | some (g3, rs2) =>
    if g3.player.y > g3.canvasH then some (resetGame g3 rs2)
    else some (g3, rs2)

/-- The state of the `Game` constructor in src/game-loop.js for a canvas of
size `w × h` (camera and score zero, player at `(w/3, 100)` with size
32 × 48, zero velocity, not jumping, initial platforms generated). -/
def initEGame (w h : ℚ) (rs : List ℚ) : EGame × List ℚ :=
  ({ canvasW := w, canvasH := h, cameraX := 0, distance := 0,
     player := { x := w / 3, y := 100, width := 32, height := 48,
                 velocityX := 0, velocityY := 0, isJumping := false },
     platforms := (generateInitialPlatforms w h rs).1 },
   (generateInitialPlatforms w h rs).2)

/-- The fixed-variant game state (src/game.js). -/
structure FGame where
  canvasW : ℚ
  canvasH : ℚ
  player : Player
  platforms : List Platform
deriving DecidableEq

/-- Velocity from input in src/game.js (`input.left` tested first). -/
def fVelXOf (inp : Input) : ℚ :=
  if inp.left then -moveSpeed else if inp.right then moveSpeed else 0

/-- Movement, jumping, gravity and position integration of `update()` in
src/game.js. -/
def fMovePlayer (inp : Input) (p : Player) : Player :=
  let vx := fVelXOf inp
  let p1 := jumpStep inp { p with velocityX := vx }
  let p2 := { p1 with velocityY := p1.velocityY + gravity }
  { p2 with x := p2.x + vx, y := p2.y + p2.velocityY }

/-- The left half of the boundary check of `update()` in src/game.js:
`if (this.player.x < 0) this.player.x = 0`. -/
def clampLeft (p : Player) : Player :=
  if p.x < 0 then { p with x := 0 } else p

/-- The boundary check of `update()` in src/game.js: clamp `x` to 0 on the
left, then to `canvas.width - player.width` on the right. -/
def clampX (w : ℚ) (p : Player) : Player :=
  if (clampLeft p).x + (clampLeft p).width > w then
    { clampLeft p with x := w - (clampLeft p).width }
  else clampLeft p

/-- `update()` of src/game.js: kinematics, boundary clamp, collisions.
There is no fall check and no reset in this variant. -/
def fUpdate (inp : Input) (g : FGame) : FGame :=
  let pl := clampX g.canvasW (fMovePlayer inp g.player)
  { g with player := checkCollisions pl g.platforms }

/-- The platform list of the src/game.js constructor: the ground and two
floating platforms. -/
def fInitPlatforms (w h : ℚ) : List Platform :=
  [ { x := 0, y := h - 50, width := w, height := 50 },
    { x := w * 0.3, y := h * 0.7, width := 200, height := 20 },
    { x := w * 0.1, y := h * 0.5, width := 200, height := 20 } ]

/-- The state of the `Game` constructor in src/game.js for a canvas of
size `w × h`. -/
def initFGame (w h : ℚ) : FGame :=
  { canvasW := w, canvasH := h,
    player := { x := 100, y := 100, width := 32, height := 48,
                velocityX := 0, velocityY := 0, isJumping := false },
    platforms := fInitPlatforms w h }

/-- In-place update of the element at one position of a list, as the
resize handler's `this.platforms[i].f = v` assignments do. -/
def modifyAt (n : ℕ) (f : α → α) : List α → List α
  | [] => []
  | a :: l => match n with
    | 0 => f a :: l
    | m + 1 => a :: modifyAt m f l

/-- The `resize` listener of src/game.js: store the new canvas size and
re-position the three platforms (ground width and y; x and y of the two
floating platforms).  No platform is added or removed. -/
def fResize (w h : ℚ) (g : FGame) : FGame :=
  { g with canvasW := w, canvasH := h,
           platforms :=
             modifyAt 0 (fun p => { p with width := w, y := h - 50 })
               (modifyAt 1 (fun p => { p with x := w * 0.3, y := h * 0.7 })
                 (modifyAt 2 (fun p => { p with x := w * 0.1, y := h * 0.5 })
                   g.platforms)) }

/-- A platform chain starting at `nextX`: the first platform sits at
`nextX` and each later platform sits one uniform(minGap, maxGap) gap after
the right edge of its predecessor. -/
def chainedFrom : ℚ → List Platform → Prop
  | _, [] => True
  | nX, p :: rest =>
    p.x = nX ∧ ∃ g, minGapWidth ≤ g ∧ g < maxGapWidth ∧
      chainedFrom (p.x + p.width + g) rest

/-- The inductive invariant of the endless variant that carries the
"platform list never empty" property: the list is non-empty, the last
platform still reaches past `cameraX - 100` (so the retention filter keeps
it next frame: the camera advances by at most `playerSpeed = 5` per
frame), the camera is non-negative and at or ahead of
`player.x - canvas.width / 3`, and the canvas is positively wide. -/
def EndlessInv (g : EGame) : Prop :=
  g.platforms ≠ [] ∧
  (∀ lp, g.platforms.getLast? = some lp → lp.x + lp.width > g.cameraX - 100) ∧
  0 ≤ g.cameraX ∧
  g.player.x - g.canvasW / 3 ≤ g.cameraX ∧
  0 < g.canvasW

/-- No input held: both variants' initial `this.input`. -/
def noInput : Input := { left := false, right := false, jump := false }

/-- A falling player just above a platform top (used to exercise the
landing branch on concrete data). -/
def pLand : Player :=
  { x := 0, y := 10, width := 32, height := 48,
    velocityX := 0, velocityY := 10, isJumping := true }

/-- The same player with zero vertical velocity (the landing condition
fails). -/
def pMiss : Player :=
  { x := 0, y := 10, width := 32, height := 48,
    velocityX := 0, velocityY := 0, isJumping := true }

/-- A player whose bottom edge exactly touches `qLand`'s top edge. -/
def pTouch : Player :=
  { x := 0, y := 2, width := 32, height := 48,
    velocityX := 0, velocityY := 10, isJumping := true }

/-- A platform under `pLand`. -/
def qLand : Platform := { x := 0, y := 50, width := 100, height := 20 }

/-- A small endless-variant state on a 300 × 600 canvas with a single wide
platform, used to run `update` on concrete data. -/
def gW : EGame :=
  { canvasW := 300, canvasH := 600, cameraX := 0, distance := 0,
    player := { x := 100, y := 100, width := 32, height := 48,
                velocityX := 0, velocityY := 0, isJumping := false },
    platforms := [{ x := 0, y := 550, width := 2000, height := 50 }] }

/-- The state one frame of `update` (no input, empty sample supply)
produces from `gW`: gravity has pulled the player to `y = 100.5`,
`velocityY = 0.5`, the collision pass has set `isJumping`, and nothing
else changed. -/
def g3W : EGame :=
  { canvasW := 300, canvasH := 600, cameraX := 0, distance := 0,
    player := { x := 100, y := 100.5, width := 32, height := 48,
                velocityX := 0, velocityY := 0.5, isJumping := true },
    platforms := [{ x := 0, y := 550, width := 2000, height := 50 }] }

/-- An endless-variant state about to fall below the canvas, with a
non-zero camera offset (refutes claim C5 on the reset frame). -/
def gFallE : EGame :=
  { canvasW := 800, canvasH := 600, cameraX := 500, distance := 5,
    player := { x := 700, y := 650, width := 32, height := 48,
                velocityX := 0, velocityY := 10, isJumping := true },
    platforms := [{ x := 0, y := 0, width := 2000, height := 20 }] }

/-- A fixed-variant state with the player already below the canvas
(refutes the fixed-variant half of claim C2: no reset happens). -/
def gFallF : FGame :=
  { canvasW := 800, canvasH := 600,
    player := { x := 100, y := 700, width := 32, height := 48,
                velocityX := 0, velocityY := 5, isJumping := true },
    platforms := fInitPlatforms 800 600 }

/-- A dummy platform used as the default of `List.headD` / `List.getD` in
closed statements. -/
def dummyPlatform : Platform := { x := 0, y := 0, width := 0, height := 0 }

/- ------------------------------------------------------------------ -/
/- Helper lemmas (shared between the claim theorems).                  -/
/- ------------------------------------------------------------------ -/

theorem getLast?_mem_self : ∀ {l : List Platform} {a : Platform},
    l.getLast? = some a → a ∈ l
  | [], a, h => by simp at h
  | [b], a, h => by simp_all
  | b :: c :: l, a, h => by
    rw [List.getLast?_cons_cons] at h
    exact List.mem_cons_of_mem b (getLast?_mem_self h)

theorem ne_nil_of_getLast? {l : List Platform} {a : Platform}
    (h : l.getLast? = some a) : l ≠ [] := by
  intro hl
  subst hl
  simp at h

theorem getLast?_cons_of_ne_nil {t : List Platform} (b : Platform)
    (h : t ≠ []) : (b :: t).getLast? = t.getLast? := by
  cases t with
  | nil => exact absurd rfl h
  | cons c l => exact List.getLast?_cons_cons

theorem getLast?_cons_cases {a b : Platform} {l : List Platform}
    (h : (a :: l).getLast? = some b) :
    (l = [] ∧ b = a) ∨ l.getLast? = some b := by
  cases l with
  | nil => simp at h; exact Or.inl ⟨rfl, h.symm⟩
  | cons c t => rw [List.getLast?_cons_cons] at h; exact Or.inr h

theorem filter_getLast? (p : Platform → Bool) : ∀ {l : List Platform}
    {a : Platform}, l.getLast? = some a → p a = true →
    (l.filter p).getLast? = some a
  | [], a, h, _ => by simp at h
  | [b], a, h, hp => by
    simp only [List.getLast?_singleton, Option.some.injEq] at h
    subst h
    simp [List.filter, hp]
  | b :: c :: l, a, h, hp => by
    rw [List.getLast?_cons_cons] at h
    have ih := filter_getLast? p h hp
    rw [List.filter_cons]
    by_cases hb : p b = true
    · rw [if_pos hb, getLast?_cons_of_ne_nil b (ne_nil_of_getLast? ih)]
      exact ih
    · rw [if_neg hb]
      exact ih

theorem draw_bounds {rs : List ℚ} (h : Bounded rs) :
    (0 ≤ (draw rs).1 ∧ (draw rs).1 < 1) ∧ Bounded (draw rs).2 := by
  cases rs with
  | nil =>
    refine ⟨⟨by norm_num [draw], by norm_num [draw]⟩, ?_⟩
    intro r hr
    simp [draw] at hr
  | cons a l =>
    exact ⟨h a (List.mem_cons_self a l), fun r hr => h r (List.mem_cons_of_mem a hr)⟩

theorem randomBetween_spec {a b : ℚ} {rs : List ℚ}
    (hrs : Bounded rs) (hab : a ≤ b) :
    a ≤ (randomBetween a b rs).1 ∧ (randomBetween a b rs).1 ≤ b ∧
    Bounded (randomBetween a b rs).2 := by
  obtain ⟨⟨h0, h1⟩, hb2⟩ := draw_bounds hrs
  have hba : (0 : ℚ) ≤ b - a := by linarith
  have hnn : 0 ≤ (draw rs).1 * (b - a) := mul_nonneg h0 hba
  have hle : (draw rs).1 * (b - a) ≤ 1 * (b - a) :=
    mul_le_mul_of_nonneg_right (le_of_lt h1) hba
  refine ⟨by simp only [randomBetween]; linarith,
          by simp only [randomBetween]; linarith, ?_⟩
  simpa only [randomBetween] using hb2

theorem randomBetween_lt {a b : ℚ} {rs : List ℚ}
    (hrs : Bounded rs) (hab : a < b) :
    (randomBetween a b rs).1 < b := by
  obtain ⟨⟨h0, h1⟩, _⟩ := draw_bounds hrs
  have hba : (0 : ℚ) < b - a := by linarith
  have hlt : (draw rs).1 * (b - a) < 1 * (b - a) :=
    mul_lt_mul_of_pos_right h1 hba
  simp only [randomBetween]
  linarith

theorem randomBetween_bounded {a b : ℚ} {rs : List ℚ} (hrs : Bounded rs) :
    Bounded (randomBetween a b rs).2 :=
  (draw_bounds hrs).2

theorem addNewPlatform_spec {startX h : ℚ} {rs : List ℚ}
    (hrs : Bounded rs) (hh : 0 ≤ h) :
    (addNewPlatform startX h rs).1.x = startX ∧
    (addNewPlatform startX h rs).1.height = platformHeight ∧
    minPlatformWidth ≤ (addNewPlatform startX h rs).1.width ∧
    (addNewPlatform startX h rs).1.width < maxPlatformWidth ∧
    h * 0.3 ≤ (addNewPlatform startX h rs).1.y ∧
    (addNewPlatform startX h rs).1.y ≤ h * 0.7 ∧
    Bounded (addNewPlatform startX h rs).2 := by
  have hw := randomBetween_spec (a := minPlatformWidth) (b := maxPlatformWidth)
    hrs (by norm_num [minPlatformWidth, maxPlatformWidth])
  have hwlt := randomBetween_lt (a := minPlatformWidth) (b := maxPlatformWidth)
    hrs (by norm_num [minPlatformWidth, maxPlatformWidth])
  have hy := randomBetween_spec (a := h * 0.3) (b := h * 0.7)
    hw.2.2 (by nlinarith)
  exact ⟨rfl, rfl, hw.1, hwlt, hy.1, hy.2.1, hy.2.2⟩

theorem collideStep_keeps (p : Player) (q : Platform) :
    (collideStep p q).x = p.x ∧ (collideStep p q).width = p.width ∧
    (collideStep p q).height = p.height ∧
    (collideStep p q).velocityX = p.velocityX := by
  unfold collideStep
  split_ifs <;> exact ⟨rfl, rfl, rfl, rfl⟩

theorem foldl_collideStep_keeps : ∀ (l : List Platform) (p0 : Player),
    (l.foldl collideStep p0).x = p0.x ∧
    (l.foldl collideStep p0).width = p0.width ∧
    (l.foldl collideStep p0).height = p0.height ∧
    (l.foldl collideStep p0).velocityX = p0.velocityX
  | [], p0 => ⟨rfl, rfl, rfl, rfl⟩
  | q :: l, p0 => by
    have ih := foldl_collideStep_keeps l (collideStep p0 q)
    have hk := collideStep_keeps p0 q
    simp only [List.foldl_cons]
    exact ⟨ih.1.trans hk.1, ih.2.1.trans hk.2.1,
           ih.2.2.1.trans hk.2.2.1, ih.2.2.2.trans hk.2.2.2⟩

theorem checkCollisions_keeps (p : Player) (l : List Platform) :
    (checkCollisions p l).x = p.x ∧ (checkCollisions p l).width = p.width ∧
    (checkCollisions p l).height = p.height ∧
    (checkCollisions p l).velocityX = p.velocityX :=
  foldl_collideStep_keeps l { p with isJumping := true }

theorem velXOf_bounds (inp : Input) : velXOf inp ≤ 5 ∧ -5 ≤ velXOf inp := by
  unfold velXOf
  split_ifs <;> norm_num [playerSpeed]

theorem movePlayer_x (inp : Input) (p : Player) :
    (movePlayer inp p).x = p.x + velXOf inp := by
  simp only [movePlayer, jumpStep]
  split <;> rfl

theorem movePlayer_keeps (inp : Input) (p : Player) :
    (movePlayer inp p).width = p.width ∧ (movePlayer inp p).height = p.height := by
  simp only [movePlayer, jumpStep]
  split <;> exact ⟨rfl, rfl⟩

theorem cameraStep_keeps (g : EGame) :
    (cameraStep g).player = g.player ∧ (cameraStep g).canvasW = g.canvasW ∧
    (cameraStep g).canvasH = g.canvasH ∧ (cameraStep g).platforms = g.platforms := by
  unfold cameraStep
  split_ifs <;> exact ⟨rfl, rfl, rfl, rfl⟩

theorem cameraStep_pos (g : EGame) (h : g.player.x > g.canvasW / 3) :
    (cameraStep g).cameraX = g.player.x - g.canvasW / 3 ∧
    (cameraStep g).distance = ⌊(g.player.x - g.canvasW / 3) / 100⌋ := by
  unfold cameraStep
  rw [if_pos h]
  exact ⟨rfl, rfl⟩

theorem cameraStep_neg (g : EGame) (h : ¬ g.player.x > g.canvasW / 3) :
    (cameraStep g).cameraX = g.cameraX ∧ (cameraStep g).distance = g.distance := by
  unfold cameraStep
  rw [if_neg h]
  exact ⟨rfl, rfl⟩

theorem integrate_keeps (inp : Input) (g : EGame) :
    (integrate inp g).player = movePlayer inp g.player ∧
    (integrate inp g).canvasW = g.canvasW ∧
    (integrate inp g).canvasH = g.canvasH ∧
    (integrate inp g).platforms = g.platforms := by
  unfold integrate
  have h := cameraStep_keeps { g with player := movePlayer inp g.player }
  exact ⟨h.1, h.2.1, h.2.2.1, h.2.2.2⟩

theorem integrate_camera (inp : Input) (g : EGame)
    (hx : g.player.x - g.canvasW / 3 ≤ g.cameraX) (hc : 0 ≤ g.cameraX) :
    (integrate inp g).cameraX ≤ g.cameraX + 5 ∧
    0 ≤ (integrate inp g).cameraX ∧
    (integrate inp g).player.x - g.canvasW / 3 ≤ (integrate inp g).cameraX := by
  have hkeep := integrate_keeps inp g
  have hmx : (integrate inp g).player.x = g.player.x + velXOf inp := by
    rw [hkeep.1, movePlayer_x]
  have hvb := velXOf_bounds inp
  have hx' : (movePlayer inp g.player).x = g.player.x + velXOf inp :=
    movePlayer_x inp g.player
  by_cases hcond : (movePlayer inp g.player).x > g.canvasW / 3
  · have hcam : (integrate inp g).cameraX =
        (movePlayer inp g.player).x - g.canvasW / 3 :=
      (cameraStep_pos { g with player := movePlayer inp g.player } hcond).1
    refine ⟨by rw [hcam, hx']; linarith, by rw [hcam]; linarith, ?_⟩
    rw [hcam, hmx, hx']
  · have hcam : (integrate inp g).cameraX = g.cameraX :=
      (cameraStep_neg { g with player := movePlayer inp g.player } hcond).1
    have hle : (movePlayer inp g.player).x ≤ g.canvasW / 3 := le_of_not_lt hcond
    refine ⟨by rw [hcam]; linarith, by rw [hcam]; exact hc, ?_⟩
    rw [hcam, hmx]
    linarith

theorem updatePlatforms_fields {g : EGame} {rs : List ℚ} {g' : EGame}
    {rs' : List ℚ} (h : updatePlatforms g rs = some (g', rs')) :
    g'.player = g.player ∧ g'.cameraX = g.cameraX ∧ g'.distance = g.distance ∧
    g'.canvasW = g.canvasW ∧ g'.canvasH = g.canvasH ∧
    ∃ t, t.length ≤ 1 ∧
      g'.platforms = g.platforms.filter (keepPred g.cameraX) ++ t := by
  simp only [updatePlatforms] at h
  cases hL : (g.platforms.filter (keepPred g.cameraX)).getLast? with
  | none =>
    rw [hL] at h
    simp at h
  | some lp =>
    rw [hL] at h
    dsimp only at h
    by_cases hc : lp.x + lp.width < g.cameraX + g.canvasW + 500
    · rw [if_pos hc] at h
      simp only [Option.some.injEq, Prod.mk.injEq] at h
      obtain ⟨hg, _⟩ := h
      subst hg
      exact ⟨rfl, rfl, rfl, rfl, rfl,
        ⟨[(addNewPlatform (lp.x + lp.width +
            (randomBetween minGapWidth maxGapWidth rs).1) g.canvasH
            (randomBetween minGapWidth maxGapWidth rs).2).1],
         by norm_num, rfl⟩⟩
    · rw [if_neg hc] at h
      simp only [Option.some.injEq, Prod.mk.injEq] at h
      obtain ⟨hg, _⟩ := h
      subst hg
      exact ⟨rfl, rfl, rfl, rfl, rfl, ⟨[], by norm_num, by simp⟩⟩

theorem updatePlatforms_some (g : EGame) (rs : List ℚ) (lp : Platform)
    (hlp : (g.platforms.filter (keepPred g.cameraX)).getLast? = some lp)
    (hrs : Bounded rs) (hw : 0 < g.canvasW) :
    ∃ g' rs', updatePlatforms g rs = some (g', rs') ∧
      g'.platforms ≠ [] ∧
      (∀ lp', g'.platforms.getLast? = some lp' →
        lp'.x + lp'.width > g.cameraX - 100) ∧
      Bounded rs' := by
  have hmem := List.mem_filter.mp (getLast?_mem_self hlp)
  have hkeep : lp.x + lp.width > g.cameraX - 300 := by
    have := hmem.2
    simpa [keepPred] using this
  simp only [updatePlatforms]
  rw [hlp]
  dsimp only
  by_cases hc : lp.x + lp.width < g.cameraX + g.canvasW + 500
  · rw [if_pos hc]
    have hgap := randomBetween_spec (a := minGapWidth) (b := maxGapWidth)
      hrs (by norm_num [minGapWidth, maxGapWidth])
    have hwidth := randomBetween_spec (a := minPlatformWidth)
      (b := maxPlatformWidth) hgap.2.2
      (by norm_num [minPlatformWidth, maxPlatformWidth])
    refine ⟨_, _, rfl, by simp, ?_, ?_⟩
    · intro lp' hlp'
      rw [List.getLast?_concat] at hlp'
      have hlp'' := Option.some_injective _ hlp'
      subst hlp''
      have hx : (addNewPlatform (lp.x + lp.width +
          (randomBetween minGapWidth maxGapWidth rs).1) g.canvasH
          (randomBetween minGapWidth maxGapWidth rs).2).1.x =
          lp.x + lp.width + (randomBetween minGapWidth maxGapWidth rs).1 := rfl
      have hwd : (addNewPlatform (lp.x + lp.width +
          (randomBetween minGapWidth maxGapWidth rs).1) g.canvasH
          (randomBetween minGapWidth maxGapWidth rs).2).1.width =
          (randomBetween minPlatformWidth maxPlatformWidth
            (randomBetween minGapWidth maxGapWidth rs).2).1 := rfl
      rw [hx, hwd]
      have h1 : minGapWidth ≤ (randomBetween minGapWidth maxGapWidth rs).1 :=
        hgap.1
      have h2 : minPlatformWidth ≤ (randomBetween minPlatformWidth
          maxPlatformWidth (randomBetween minGapWidth maxGapWidth rs).2).1 :=
        hwidth.1
      have hg100 : (100 : ℚ) ≤ (randomBetween minGapWidth maxGapWidth rs).1 := by
        simpa [minGapWidth] using h1
      have hw100 : (100 : ℚ) ≤ (randomBetween minPlatformWidth
          maxPlatformWidth (randomBetween minGapWidth maxGapWidth rs).2).1 := by
        simpa [minPlatformWidth] using h2
      linarith
    · exact randomBetween_bounded (a := g.canvasH * 0.3) (b := g.canvasH * 0.7)
        (randomBetween_bounded (a := minPlatformWidth) (b := maxPlatformWidth)
          hgap.2.2)
  · rw [if_neg hc]
    refine ⟨_, _, rfl, ne_nil_of_getLast? hlp, ?_, hrs⟩
    intro lp' hlp'
    rw [hlp] at hlp'
    have hlp'' := Option.some_injective _ hlp'
    subst hlp''
    have hge : lp.x + lp.width ≥ g.cameraX + g.canvasW + 500 := le_of_not_lt hc
    linarith

theorem genLoop_mem (h : ℚ) : ∀ (n : ℕ) (nextX : ℚ) (rs : List ℚ),
    Bounded rs → ∀ p ∈ (genLoop h nextX n rs).1,
      nextX ≤ p.x ∧ minPlatformWidth ≤ p.width
  | 0, nextX, rs, _, p, hp => by simp [genLoop] at hp
  | n + 1, nextX, rs, hrs, p, hp => by
    have hwidth := randomBetween_spec (a := minPlatformWidth)
      (b := maxPlatformWidth) hrs
      (by norm_num [minPlatformWidth, maxPlatformWidth])
    have hyB := randomBetween_bounded (a := nextX * 0.3) (b := nextX * 0.7)
      hwidth.2.2
    have hr1 : Bounded (addNewPlatform nextX h rs).2 :=
      randomBetween_bounded (a := h * 0.3) (b := h * 0.7)
        (randomBetween_bounded (a := minPlatformWidth) (b := maxPlatformWidth)
          hrs)
    have hgap := randomBetween_spec (a := minGapWidth) (b := maxGapWidth)
      hr1 (by norm_num [minGapWidth, maxGapWidth])
    simp only [genLoop] at hp
    rcases List.mem_cons.mp hp with hp1 | hp2
    · subst hp1
      exact ⟨le_refl _, hwidth.1⟩
    · have ih := genLoop_mem h n
        (nextX + (addNewPlatform nextX h rs).1.width +
          (randomBetween minGapWidth maxGapWidth (addNewPlatform nextX h rs).2).1)
        (randomBetween minGapWidth maxGapWidth (addNewPlatform nextX h rs).2).2
        (randomBetween_bounded (a := minGapWidth) (b := maxGapWidth) hr1)
        p hp2
      have hwp : minPlatformWidth ≤ (addNewPlatform nextX h rs).1.width :=
        hwidth.1
      have h100w : (100 : ℚ) ≤ (addNewPlatform nextX h rs).1.width := by
        simpa [minPlatformWidth] using hwp
      have h100g : (100 : ℚ) ≤
          (randomBetween minGapWidth maxGapWidth (addNewPlatform nextX h rs).2).1 := by
        simpa [minGapWidth] using hgap.1
      exact ⟨by linarith [ih.1], ih.2⟩

theorem exists_getLast?_of_ne_nil : ∀ {l : List Platform}, l ≠ [] →
    ∃ a, l.getLast? = some a
  | [], h => absurd rfl h
  | a :: l, _ => ⟨(a :: l).getLast (by simp), List.getLast?_eq_getLast _ (by simp)⟩

theorem generateInitialPlatforms_last {w h : ℚ} {rs : List ℚ}
    (hrs : Bounded rs) (hw : 0 < w) :
    (generateInitialPlatforms w h rs).1 ≠ [] ∧
    ∀ lp, (generateInitialPlatforms w h rs).1.getLast? = some lp →
      lp.x + lp.width > -100 := by
  constructor
  · simp [generateInitialPlatforms]
  · intro lp hlp
    simp only [generateInitialPlatforms] at hlp
    rcases getLast?_cons_cases hlp with ⟨_, hlpg⟩ | h2
    · subst hlpg
      norm_num
      linarith
    · have hmem := getLast?_mem_self h2
      have hb := genLoop_mem h 10 w rs hrs lp hmem
      have h100 : (100 : ℚ) ≤ lp.width := by
        simpa [minPlatformWidth] using hb.2
      linarith [hb.1]

theorem preReset_of_updatePlatforms {inp : Input} {g g2 : EGame}
    {rs rs2 : List ℚ}
    (h : updatePlatforms (integrate inp g) rs = some (g2, rs2)) :
    preReset inp g rs =
      some ({ g2 with player := checkCollisions g2.player g2.platforms }, rs2) := by
  unfold preReset
  rw [h]

theorem preReset_spec {inp : Input} {g : EGame} {rs : List ℚ} {g3 : EGame}
    {rs2 : List ℚ} (h : preReset inp g rs = some (g3, rs2)) :
    ∃ g2, updatePlatforms (integrate inp g) rs = some (g2, rs2) ∧
      g3 = { g2 with player := checkCollisions g2.player g2.platforms } := by
  unfold preReset at h
  cases hU : updatePlatforms (integrate inp g) rs with
  | none => rw [hU] at h; simp at h
  | some v =>
    obtain ⟨g2, rs2'⟩ := v
    rw [hU] at h
    dsimp only at h
    simp only [Option.some.injEq, Prod.mk.injEq] at h
    refine ⟨g2, ?_, h.1.symm⟩
    rw [← h.2]

theorem update_of_preReset {inp : Input} {g : EGame} {rs : List ℚ}
    {g3 : EGame} {rs2 : List ℚ} (h : preReset inp g rs = some (g3, rs2)) :
    update inp g rs =
      if g3.player.y > g3.canvasH then some (resetGame g3 rs2)
      else some (g3, rs2) := by
  unfold update
  rw [h]

theorem update_cases {inp : Input} {g : EGame} {rs : List ℚ} {g' : EGame}
    {rs' : List ℚ} (h : update inp g rs = some (g', rs')) :
    ∃ g3 rs2, preReset inp g rs = some (g3, rs2) ∧
      ((¬ g3.player.y > g3.canvasH ∧ g' = g3 ∧ rs' = rs2) ∨
       (g3.player.y > g3.canvasH ∧ (g', rs') = resetGame g3 rs2)) := by
  unfold update at h
  cases hP : preReset inp g rs with
  | none => rw [hP] at h; simp at h
  | some v =>
    obtain ⟨g3, rs2⟩ := v
    rw [hP] at h
    dsimp only at h
    by_cases hy : g3.player.y > g3.canvasH
    · rw [if_pos hy] at h
      exact ⟨g3, rs2, rfl, Or.inr ⟨hy, (Option.some_injective _ h).symm⟩⟩
    · rw [if_neg hy] at h
      simp only [Option.some.injEq, Prod.mk.injEq] at h
      exact ⟨g3, rs2, rfl, Or.inl ⟨hy, h.1.symm, h.2.symm⟩⟩

theorem resetGame_inv {g : EGame} {rs : List ℚ} (hrs : Bounded rs)
    (hw : 0 < g.canvasW) : EndlessInv (resetGame g rs).1 := by
  obtain ⟨hne, hlast⟩ :=
    generateInitialPlatforms_last (w := g.canvasW) (h := g.canvasH) hrs hw
  unfold EndlessInv
  refine ⟨hne, ?_, le_refl 0, ?_, hw⟩
  · intro lp hlp
    have hb := hlast lp hlp
    show lp.x + lp.width > 0 - 100
    linarith
  · show g.canvasW / 3 - g.canvasW / 3 ≤ 0
    linarith

theorem update_preserves_inv (inp : Input) (g : EGame) (rs : List ℚ)
    (hinv : EndlessInv g) (hrs : Bounded rs) :
    ∃ g' rs', update inp g rs = some (g', rs') ∧ EndlessInv g' := by
  obtain ⟨hne, hlast, hc0, hxc, hw⟩ := hinv
  have hik := integrate_keeps inp g
  have hicam := integrate_camera inp g hxc hc0
  obtain ⟨lp, hlp⟩ := exists_getLast?_of_ne_nil hne
  have hlpb := hlast lp hlp
  have hkp : keepPred (integrate inp g).cameraX lp = true := by
    simp only [keepPred, decide_eq_true_eq]
    linarith [hicam.1]
  have hfl : ((integrate inp g).platforms.filter
      (keepPred (integrate inp g).cameraX)).getLast? = some lp := by
    rw [hik.2.2.2]
    exact filter_getLast? _ hlp hkp
  have hw1 : 0 < (integrate inp g).canvasW := by
    rw [hik.2.1]
    exact hw
  obtain ⟨g2, rs2, hU, hne2, hlast2, hrs2⟩ :=
    updatePlatforms_some (integrate inp g) rs lp hfl hrs hw1
  have hUf := updatePlatforms_fields hU
  have hPR := preReset_of_updatePlatforms hU
  have hupd := update_of_preReset hPR
  have hg3p : ({ g2 with player := checkCollisions g2.player g2.platforms }
      : EGame).player.x = g2.player.x :=
    (checkCollisions_keeps g2.player g2.platforms).1
  have hinv3 : EndlessInv
      { g2 with player := checkCollisions g2.player g2.platforms } := by
    unfold EndlessInv
    refine ⟨hne2, ?_, ?_, ?_, ?_⟩
    · intro lp' hlp'
      have := hlast2 lp' hlp'
      show lp'.x + lp'.width > g2.cameraX - 100
      rw [hUf.2.1]
      exact this
    · show 0 ≤ g2.cameraX
      rw [hUf.2.1]
      exact hicam.2.1
    · show (checkCollisions g2.player g2.platforms).x - g2.canvasW / 3 ≤
        g2.cameraX
      rw [(checkCollisions_keeps g2.player g2.platforms).1, hUf.1, hUf.2.1,
        hUf.2.2.2.1, hik.2.1]
      exact hicam.2.2
    · show 0 < g2.canvasW
      rw [hUf.2.2.2.1]
      exact hw1
  by_cases hy : ({ g2 with player := checkCollisions g2.player g2.platforms }
      : EGame).player.y >
      ({ g2 with player := checkCollisions g2.player g2.platforms }
      : EGame).canvasH
  · rw [if_pos hy] at hupd
    refine ⟨(resetGame { g2 with
        player := checkCollisions g2.player g2.platforms } rs2).1,
      (resetGame { g2 with
        player := checkCollisions g2.player g2.platforms } rs2).2, ?_, ?_⟩
    · rw [hupd]
    · refine resetGame_inv hrs2 ?_
      show 0 < g2.canvasW
      rw [hUf.2.2.2.1]
      exact hw1
  · rw [if_neg hy] at hupd
    exact ⟨_, _, hupd, hinv3⟩

theorem initEGame_inv (w h : ℚ) (rs : List ℚ) (hw : 0 < w)
    (hrs : Bounded rs) : EndlessInv (initEGame w h rs).1 := by
  obtain ⟨hne, hlast⟩ :=
    generateInitialPlatforms_last (w := w) (h := h) hrs hw
  unfold EndlessInv
  refine ⟨hne, ?_, le_refl 0, ?_, hw⟩
  · intro lp hlp
    have := hlast lp hlp
    show lp.x + lp.width > 0 - 100
    linarith
  · show w / 3 - w / 3 ≤ 0
    linarith

theorem modifyAt_length (f : Platform → Platform) : ∀ (n : ℕ)
    (l : List Platform), (modifyAt n f l).length = l.length
  | n, [] => by cases n <;> rfl
  | 0, a :: l => rfl
  | n + 1, a :: l => by
    show (a :: modifyAt n f l).length = (a :: l).length
    simp [modifyAt_length f n l]

/- ------------------------------------------------------------------ -/
/- The claim theorems.                                                 -/
/- ------------------------------------------------------------------ -/

/-- C1: in both variants (the collision loop body `collideStep` and the
driver `checkCollisions` are shared verbatim by src/game-loop.js and
src/game.js), a platform whose rectangle overlaps the player's on both
axes while the player is falling (`velocityY > 0`) with previous bottom
edge (`y + height - velocityY`) at or above the platform top snaps the
player to the platform top (`y = platform.y - height`), zeroes
`velocityY` and clears `isJumping`; a platform for which this condition
fails leaves the player entirely unchanged. -/
theorem spec_C1_collision_rule (p : Player) (q : Platform) :
    ((p.x < q.x + q.width ∧ p.x + p.width > q.x ∧
        p.y < q.y + q.height ∧ p.y + p.height > q.y) ∧
      p.velocityY > 0 ∧ p.y + p.height - p.velocityY ≤ q.y →
      collideStep p q =
        { p with y := q.y - p.height, velocityY := 0, isJumping := false }) ∧
    (¬ ((p.x < q.x + q.width ∧ p.x + p.width > q.x ∧
        p.y < q.y + q.height ∧ p.y + p.height > q.y) ∧
      p.velocityY > 0 ∧ p.y + p.height - p.velocityY ≤ q.y) →
      collideStep p q = p) ∧
    (∀ l, checkCollisions p l =
      l.foldl collideStep { p with isJumping := true }) := by
  refine ⟨?_, ?_, fun l => rfl⟩
  · rintro ⟨hov, hland⟩
    unfold collideStep
    rw [if_pos hov, if_pos hland]
  · intro hn
    unfold collideStep
    by_cases hov : p.x < q.x + q.width ∧ p.x + p.width > q.x ∧
        p.y < q.y + q.height ∧ p.y + p.height > q.y
    · rw [if_pos hov]
      by_cases hland : p.velocityY > 0 ∧ p.y + p.height - p.velocityY ≤ q.y
      · exact absurd ⟨hov, hland⟩ hn
      · rw [if_neg hland]
    · rw [if_neg hov]

/-- Witness for C1: a concrete landing (`pLand` onto `qLand`, snapping to
`y = 2`) and a concrete non-landing (`pMiss` has `velocityY = 0`). -/
theorem spec_C1_witness :
    collideStep pLand qLand =
      { pLand with y := qLand.y - pLand.height, velocityY := 0,
                   isJumping := false } ∧
    collideStep pMiss qLand = pMiss :=
  ⟨(spec_C1_collision_rule pLand qLand).1 (by norm_num [pLand, qLand]),
   (spec_C1_collision_rule pMiss qLand).2.1 (by norm_num [pMiss, qLand])⟩

/-- C10: in both variants the AABB overlap test of the (shared) collision
loop body uses strict comparisons on all four sides: a player rectangle
that merely touches a platform edge (equality on any of the four
comparisons) is not in collision and the platform changes nothing. -/
theorem spec_C10_touch_no_collision (p : Player) (q : Platform)
    (h : p.x + p.width = q.x ∨ p.x = q.x + q.width ∨
         p.y + p.height = q.y ∨ p.y = q.y + q.height) :
    collideStep p q = p := by
  unfold collideStep
  split_ifs with hov hland
  · exfalso
    obtain ⟨h1, h2, h3, h4⟩ := hov
    rcases h with h | h | h | h <;> linarith
  · rfl
  · rfl

/-- Witness for C10: `pTouch`'s bottom edge is exactly `qLand`'s top
edge, and the collision step leaves the player unchanged. -/
theorem spec_C10_witness : collideStep pTouch qLand = pTouch :=
  spec_C10_touch_no_collision pTouch qLand (by norm_num [pTouch, qLand])

/-- C6: in the fixed variant the platform list always has exactly three
members: the constructor builds three, the per-frame update returns the
platform list unchanged (its collision pass only reads it, and the input
handlers touch only `this.input`), and the resize handler re-positions
in place, preserving the length. -/
theorem spec_C6_three_platforms :
    (∀ w h : ℚ, (fInitPlatforms w h).length = 3) ∧
    (∀ (inp : Input) (g : FGame), (fUpdate inp g).platforms = g.platforms) ∧
    (∀ (w h : ℚ) (g : FGame),
      ((fResize w h g).platforms).length = g.platforms.length) := by
  refine ⟨fun w h => rfl, fun inp g => rfl, fun w h g => ?_⟩
  show (modifyAt 0 _ (modifyAt 1 _ (modifyAt 2 _ g.platforms))).length =
    g.platforms.length
  rw [modifyAt_length, modifyAt_length, modifyAt_length]

theorem clampLeft_spec (p : Player) :
    (clampLeft p).width = p.width ∧ 0 ≤ (clampLeft p).x := by
  unfold clampLeft
  split_ifs with h
  · exact ⟨rfl, le_refl 0⟩
  · exact ⟨rfl, le_of_not_lt h⟩

theorem clampX_spec (w : ℚ) (p : Player) (h : p.width ≤ w) :
    (clampX w p).width = p.width ∧ 0 ≤ (clampX w p).x ∧
    (clampX w p).x + (clampX w p).width ≤ w := by
  obtain ⟨hw, hx⟩ := clampLeft_spec p
  unfold clampX
  split_ifs with hc
  · refine ⟨hw, ?_, ?_⟩
    · show 0 ≤ w - (clampLeft p).width
      rw [hw]
      linarith
    · show w - (clampLeft p).width + (clampLeft p).width ≤ w
      linarith
  · exact ⟨hw, hx, le_of_not_lt hc⟩

theorem fMovePlayer_keeps (inp : Input) (p : Player) :
    (fMovePlayer inp p).width = p.width := by
  simp only [fMovePlayer, jumpStep]
  split <;> rfl

/-- C9 (amended): in the fixed variant, provided the player is no wider
than the canvas (the player is 32 wide, so any canvas of width at least
32), after every per-frame update the player is horizontally within the
canvas: the update clamps `x` into `[0, canvas.width - player.width]`
after position integration, and the collision pass never changes `x`.
(The unamended claim fails when the canvas is narrower than the player:
the right clamp then forces `x` negative.) -/
theorem spec_C9_player_in_bounds (inp : Input) (g : FGame)
    (h : g.player.width ≤ g.canvasW) :
    0 ≤ (fUpdate inp g).player.x ∧
    (fUpdate inp g).player.x + (fUpdate inp g).player.width ≤
      (fUpdate inp g).canvasW := by
  have hw1 : (fMovePlayer inp g.player).width ≤ g.canvasW := by
    rw [fMovePlayer_keeps]
    exact h
  have hcl := clampX_spec g.canvasW (fMovePlayer inp g.player) hw1
  have hcc := checkCollisions_keeps
    (clampX g.canvasW (fMovePlayer inp g.player)) g.platforms
  have hpx : (fUpdate inp g).player.x =
      (clampX g.canvasW (fMovePlayer inp g.player)).x := hcc.1
  have hpw : (fUpdate inp g).player.width =
      (clampX g.canvasW (fMovePlayer inp g.player)).width := hcc.2.1
  have hcw : (fUpdate inp g).canvasW = g.canvasW := rfl
  rw [hpx, hpw, hcw]
  exact ⟨hcl.2.1, hcl.2.2⟩

/-- Counterexample for C9 as stated: on a 10-wide canvas (narrower than
the 32-wide player) a single update drives `x` to −22, outside the
canvas. -/
theorem spec_C9_cex :
    ¬ (0 ≤ (fUpdate noInput (initFGame 10 600)).player.x ∧
        (fUpdate noInput (initFGame 10 600)).player.x +
          (fUpdate noInput (initFGame 10 600)).player.width ≤
          (fUpdate noInput (initFGame 10 600)).canvasW) := by
  norm_num [fUpdate, fMovePlayer, jumpStep, fVelXOf, clampX, clampLeft,
    checkCollisions, collideStep, initFGame, fInitPlatforms, noInput,
    gravity, moveSpeed, List.foldl]

/-- Witness for C9 (amended): on an 800-wide canvas the bound holds after
one update. -/
theorem spec_C9_witness :
    0 ≤ (fUpdate noInput (initFGame 800 600)).player.x ∧
    (fUpdate noInput (initFGame 800 600)).player.x +
      (fUpdate noInput (initFGame 800 600)).player.width ≤
      (fUpdate noInput (initFGame 800 600)).canvasW :=
  spec_C9_player_in_bounds noInput (initFGame 800 600)
    (by norm_num [initFGame])

/-- C2 (amended): only the endless variant ends its per-frame update with
a fall-based reset.  In src/game-loop.js, whenever `player.y` exceeds the
canvas height after position integration and collision resolution, the
update calls `resetGame()`: the player returns to the start position
`(canvas.width/3, 100)` with zero velocity, `cameraX` and `distance` are
zeroed and the platform list is regenerated; when `player.y` does not
exceed the canvas height, the state after collisions is returned
unchanged.  The fixed variant (src/game.js) has no reset: its update ends
with collision resolution.  (The unamended claim asserted the reset for
both variants.) -/
theorem spec_C2_fall_reset :
    (∀ (inp : Input) (g : EGame) (rs : List ℚ) (g3 : EGame) (rs2 : List ℚ),
      preReset inp g rs = some (g3, rs2) →
      (g3.player.y > g3.canvasH →
        update inp g rs = some (resetGame g3 rs2) ∧
        (resetGame g3 rs2).1.player.x = g3.canvasW / 3 ∧
        (resetGame g3 rs2).1.player.y = 100 ∧
        (resetGame g3 rs2).1.player.velocityX = 0 ∧
        (resetGame g3 rs2).1.player.velocityY = 0 ∧
        (resetGame g3 rs2).1.cameraX = 0 ∧
        (resetGame g3 rs2).1.distance = 0 ∧
        (resetGame g3 rs2).1.platforms =
          (generateInitialPlatforms g3.canvasW g3.canvasH rs2).1) ∧
      (¬ g3.player.y > g3.canvasH → update inp g rs = some (g3, rs2))) ∧
    (∀ (inp : Input) (g : FGame),
      fUpdate inp g = { g with player := (checkCollisions
        (clampX g.canvasW (fMovePlayer inp g.player)) g.platforms) }) := by
  constructor
  · intro inp g rs g3 rs2 h
    have hupd := update_of_preReset h
    constructor
    · intro hy
      rw [if_pos hy] at hupd
      exact ⟨hupd, rfl, rfl, rfl, rfl, rfl, rfl, rfl⟩
    · intro hy
      rw [if_neg hy] at hupd
      exact hupd
  · intro inp g
    rfl

/-- Counterexample for C2 as stated: in the fixed variant a player below
the canvas stays below it after the update (no reset), with non-zero
velocity and `y` far from the start position. -/
theorem spec_C2_cex :
    (fUpdate noInput gFallF).player.y > gFallF.canvasH ∧
    (fUpdate noInput gFallF).player.y ≠ 100 ∧
    (fUpdate noInput gFallF).player.velocityY ≠ 0 := by
  norm_num [fUpdate, fMovePlayer, jumpStep, fVelXOf, clampX, clampLeft,
    checkCollisions, collideStep, gFallF, fInitPlatforms, noInput,
    gravity, moveSpeed, List.foldl]

/-- Witness for C2 (amended): a concrete endless-variant frame from `gW`
in which no fall occurs and the update returns the post-collision state
unchanged. -/
theorem spec_C2_witness : update noInput gW [] = some (g3W, []) :=
  (spec_C2_fall_reset.1 noInput gW [] g3W []
      (by norm_num [preReset, integrate, movePlayer, jumpStep, velXOf,
        cameraStep, updatePlatforms, keepPred, checkCollisions, collideStep,
        gW, g3W, noInput, gravity, playerSpeed, randomBetween, draw,
        addNewPlatform, minGapWidth, maxGapWidth, minPlatformWidth,
        maxPlatformWidth, platformHeight, List.filter, List.foldl])).2
    (by norm_num [g3W])

/-- C5 (amended): in the endless variant, after a per-frame update in
which the fall reset does not fire, `cameraX` equals
`player.x - canvas.width/3` whenever the player's x exceeds one third of
the canvas width, and is left unchanged otherwise; on a frame in which
the fall reset fires, `cameraX` is instead set to 0 (and the player is
moved back to `x = canvas.width/3`), even though the final `player.x`
does not exceed the threshold.  (The unamended claim asserted the
unchanged-camera case unconditionally, which the reset frame refutes.) -/
theorem spec_C5_camera : ∀ (inp : Input) (g : EGame) (rs : List ℚ)
    (g3 : EGame) (rs2 : List ℚ), preReset inp g rs = some (g3, rs2) →
    (¬ g3.player.y > g3.canvasH →
      update inp g rs = some (g3, rs2) ∧
      (g3.player.x > g3.canvasW / 3 →
        g3.cameraX = g3.player.x - g3.canvasW / 3) ∧
      (¬ g3.player.x > g3.canvasW / 3 → g3.cameraX = g.cameraX)) ∧
    (g3.player.y > g3.canvasH →
      (update inp g rs).map (fun z => z.1.cameraX) = some 0) := by
  intro inp g rs g3 rs2 h
  obtain ⟨g2, hU, hg3⟩ := preReset_spec h
  have hUf := updatePlatforms_fields hU
  have hik := integrate_keeps inp g
  have hg3x : g3.player.x = (movePlayer inp g.player).x := by
    rw [hg3]
    show (checkCollisions g2.player g2.platforms).x = _
    rw [(checkCollisions_keeps g2.player g2.platforms).1, hUf.1, hik.1]
  have hg3cam : g3.cameraX = (integrate inp g).cameraX := by
    rw [hg3]
    show g2.cameraX = _
    rw [hUf.2.1]
  have hg3w : g3.canvasW = g.canvasW := by
    rw [hg3]
    show g2.canvasW = _
    rw [hUf.2.2.2.1, hik.2.1]
  have hupd := update_of_preReset h
  constructor
  · intro hy
    rw [if_neg hy] at hupd
    refine ⟨hupd, ?_, ?_⟩
    · intro hx
      rw [hg3x, hg3w] at hx
      rw [hg3cam, hg3x, hg3w]
      exact (cameraStep_pos { g with player := movePlayer inp g.player } hx).1
    · intro hx
      rw [hg3x, hg3w] at hx
      rw [hg3cam]
      exact (cameraStep_neg { g with player := movePlayer inp g.player } hx).1
  · intro hy
    rw [if_pos hy] at hupd
    rw [hupd]
    rfl

/-- Counterexample for C5 as stated: from `gFallE` (camera at 500) the
update fires the reset; afterwards the player's x equals exactly one
third of the canvas width (not above the threshold), yet `cameraX` is 0,
not the pre-update 500. -/
theorem spec_C5_cex :
    (update noInput gFallE []).map (fun z => (z.1.cameraX, z.1.player.x)) =
      some (0, 800 / 3) ∧
    ¬ ((800 : ℚ) / 3 > 800 / 3) ∧ (0 : ℚ) ≠ 500 := by
  refine ⟨?_, by norm_num, by norm_num⟩
  norm_num [update, preReset, integrate, movePlayer, jumpStep, velXOf,
    cameraStep, updatePlatforms, keepPred, checkCollisions, collideStep,
    resetGame, generateInitialPlatforms, genLoop, addNewPlatform,
    randomBetween, draw, gFallE, noInput, gravity, playerSpeed,
    minGapWidth, maxGapWidth, minPlatformWidth, maxPlatformWidth,
    platformHeight, List.filter, List.foldl]

/-- Witness for C5 (amended): the no-reset frame from `gW` keeps the
camera unchanged because the player is at the threshold, not beyond. -/
theorem spec_C5_witness :
    update noInput gW [] = some (g3W, []) ∧ g3W.cameraX = gW.cameraX := by
  have h := spec_C5_camera noInput gW [] g3W []
    (by norm_num [preReset, integrate, movePlayer, jumpStep, velXOf,
      cameraStep, updatePlatforms, keepPred, checkCollisions, collideStep,
      gW, g3W, noInput, gravity, playerSpeed, randomBetween, draw,
      addNewPlatform, minGapWidth, maxGapWidth, minPlatformWidth,
      maxPlatformWidth, platformHeight, List.filter, List.foldl])
  have h1 := h.1 (by norm_num [g3W])
  exact ⟨h1.1, h1.2.2 (by norm_num [g3W])⟩

/-- C7: in the endless variant platforms are immutable once created and
the list changes only structurally: after any successful update the
platform list is either the retention filter of the previous list
(possibly with one newly generated platform appended), or — on a reset
frame — a wholesale regeneration; no existing platform's fields are
modified (each survivor is the very element of the previous list). -/
theorem spec_C7_platform_immutability : ∀ (inp : Input) (g : EGame)
    (rs : List ℚ) (g' : EGame) (rs' : List ℚ),
    update inp g rs = some (g', rs') →
    (∃ t, t.length ≤ 1 ∧
      g'.platforms = g.platforms.filter (keepPred g'.cameraX) ++ t) ∨
    (∃ rs0, g'.platforms =
      (generateInitialPlatforms g.canvasW g.canvasH rs0).1) := by
  intro inp g rs g' rs' h
  obtain ⟨g3, rs2, hPre, hcase⟩ := update_cases h
  obtain ⟨g2, hU, hg3⟩ := preReset_spec hPre
  have hUf := updatePlatforms_fields hU
  have hik := integrate_keeps inp g
  obtain ⟨t, ht, hplat⟩ := hUf.2.2.2.2.2
  rcases hcase with ⟨hy, hg', hrs'⟩ | ⟨hy, hreset⟩
  · left
    refine ⟨t, ht, ?_⟩
    have h1 : g'.platforms = g2.platforms := by
      rw [hg', hg3]
    have h2 : g'.cameraX = (integrate inp g).cameraX := by
      rw [hg', hg3]
      show g2.cameraX = _
      rw [hUf.2.1]
    rw [h1, hplat, hik.2.2.2, h2]
  · right
    have hg'2 : g' = (resetGame g3 rs2).1 := congrArg Prod.fst hreset
    refine ⟨rs2, ?_⟩
    have hW : g3.canvasW = g.canvasW := by
      rw [hg3]
      show g2.canvasW = _
      rw [hUf.2.2.2.1, hik.2.1]
    have hH : g3.canvasH = g.canvasH := by
      rw [hg3]
      show g2.canvasH = _
      rw [hUf.2.2.2.2.1, hik.2.2.1]
    rw [hg'2]
    show (generateInitialPlatforms g3.canvasW g3.canvasH rs2).1 = _
    rw [hW, hH]

/-- Witness for C7: the concrete frame from `gW` keeps its only platform
through the filter with nothing appended. -/
theorem spec_C7_witness :
    (∃ t, t.length ≤ 1 ∧
      g3W.platforms = gW.platforms.filter (keepPred g3W.cameraX) ++ t) ∨
    (∃ rs0, g3W.platforms =
      (generateInitialPlatforms gW.canvasW gW.canvasH rs0).1) :=
  spec_C7_platform_immutability noInput gW [] g3W []
    (by norm_num [update, preReset, integrate, movePlayer, jumpStep, velXOf,
      cameraStep, updatePlatforms, keepPred, checkCollisions, collideStep,
      gW, g3W, noInput, gravity, playerSpeed, randomBetween, draw,
      addNewPlatform, minGapWidth, maxGapWidth, minPlatformWidth,
      maxPlatformWidth, platformHeight, List.filter, List.foldl])

/-- C8: in the endless variant `distance = Math.floor(cameraX / 100)` is
an invariant: it holds at construction (both zero), it is re-established
whenever the camera block recomputes `cameraX`, it is preserved by
updates that leave both untouched, and `resetGame()` restores it by
zeroing both. -/
theorem spec_C8_distance_invariant :
    (∀ (w h : ℚ) (rs : List ℚ),
      (initEGame w h rs).1.distance = ⌊(initEGame w h rs).1.cameraX / 100⌋) ∧
    (∀ (inp : Input) (g : EGame) (rs : List ℚ) (g' : EGame) (rs' : List ℚ),
      g.distance = ⌊g.cameraX / 100⌋ → update inp g rs = some (g', rs') →
      g'.distance = ⌊g'.cameraX / 100⌋) := by
  constructor
  · intro w h rs
    show (0 : ℤ) = ⌊(0 : ℚ) / 100⌋
    norm_num
  · intro inp g rs g' rs' hd h
    obtain ⟨g3, rs2, hPre, hcase⟩ := update_cases h
    obtain ⟨g2, hU, hg3⟩ := preReset_spec hPre
    have hUf := updatePlatforms_fields hU
    have hint : (integrate inp g).distance =
        ⌊(integrate inp g).cameraX / 100⌋ := by
      by_cases hx : (movePlayer inp g.player).x > g.canvasW / 3
      · have h1 := cameraStep_pos { g with player := movePlayer inp g.player } hx
        have h2 : (integrate inp g).cameraX =
            (movePlayer inp g.player).x - g.canvasW / 3 := h1.1
        have h3 : (integrate inp g).distance =
            ⌊((movePlayer inp g.player).x - g.canvasW / 3) / 100⌋ := h1.2
        rw [h2, h3]
      · have h1 := cameraStep_neg { g with player := movePlayer inp g.player } hx
        have h2 : (integrate inp g).cameraX = g.cameraX := h1.1
        have h3 : (integrate inp g).distance = g.distance := h1.2
        rw [h2, h3, hd]
    have hg3d : g3.distance = ⌊g3.cameraX / 100⌋ := by
      rw [hg3]
      show g2.distance = ⌊g2.cameraX / 100⌋
      rw [hUf.2.2.1, hUf.2.1]
      exact hint
    rcases hcase with ⟨hy, hg', hrs'⟩ | ⟨hy, hreset⟩
    · rw [hg']
      exact hg3d
    · have hg'2 : g' = (resetGame g3 rs2).1 := congrArg Prod.fst hreset
      rw [hg'2]
      show (0 : ℤ) = ⌊(0 : ℚ) / 100⌋
      norm_num

/-- Witness for C8: the invariant holds after the concrete frame from
`gW`. -/
theorem spec_C8_witness : g3W.distance = ⌊g3W.cameraX / 100⌋ :=
  spec_C8_distance_invariant.2 noInput gW [] g3W []
    (by norm_num [gW])
    (by norm_num [update, preReset, integrate, movePlayer, jumpStep, velXOf,
      cameraStep, updatePlatforms, keepPred, checkCollisions, collideStep,
      gW, g3W, noInput, gravity, playerSpeed, randomBetween, draw,
      addNewPlatform, minGapWidth, maxGapWidth, minPlatformWidth,
      maxPlatformWidth, platformHeight, List.filter, List.foldl])

theorem genLoop_chained (h : ℚ) : ∀ (n : ℕ) (nextX : ℚ) (rs : List ℚ),
    Bounded rs → chainedFrom nextX (genLoop h nextX n rs).1
  | 0, nextX, rs, _ => by simp [genLoop, chainedFrom]
  | n + 1, nextX, rs, hrs => by
    have hr1 : Bounded (addNewPlatform nextX h rs).2 :=
      randomBetween_bounded (a := h * 0.3) (b := h * 0.7)
        (randomBetween_bounded (a := minPlatformWidth) (b := maxPlatformWidth)
          hrs)
    have hgap := randomBetween_spec (a := minGapWidth) (b := maxGapWidth)
      hr1 (by norm_num [minGapWidth, maxGapWidth])
    have hlt := randomBetween_lt (a := minGapWidth) (b := maxGapWidth)
      hr1 (by norm_num [minGapWidth, maxGapWidth])
    have ih := genLoop_chained h n
      (nextX + (addNewPlatform nextX h rs).1.width +
        (randomBetween minGapWidth maxGapWidth (addNewPlatform nextX h rs).2).1)
      (randomBetween minGapWidth maxGapWidth (addNewPlatform nextX h rs).2).2
      (randomBetween_bounded (a := minGapWidth) (b := maxGapWidth) hr1)
    show chainedFrom nextX ((addNewPlatform nextX h rs).1 ::
      (genLoop h _ n _).1)
    refine ⟨rfl, (randomBetween minGapWidth maxGapWidth
      (addNewPlatform nextX h rs).2).1, hgap.1, hlt, ?_⟩
    exact ih

/-- C3 (amended): in the endless variant, every platform created by
`addNewPlatform` has its `x` equal to the requested start, height
`platformHeight = 20`, width drawn from [100, 300) and y drawn from
[0.3·canvasHeight, 0.7·canvasHeight]; the platforms pushed by the initial
generation loop form a chain in which each successor starts one
uniform(100, 200) gap after its predecessor's right edge, and the
platform appended by per-frame maintenance starts one uniform(100, 200)
gap after the right edge of the last retained platform.  However, the
initial generation also pushes a ground platform
`{x: 0, y: h − 50, width: 2w, height: 50}` that obeys none of these
rules, and the first loop platform starts at `x = canvas.width`, not one
gap after the ground's right edge.  (The unamended claim asserted the
rules for every platform appended by the initial generation.) -/
theorem spec_C3_generation :
    (∀ (startX h : ℚ) (rs : List ℚ), Bounded rs → 0 ≤ h →
      (addNewPlatform startX h rs).1.x = startX ∧
      (addNewPlatform startX h rs).1.height = platformHeight ∧
      minPlatformWidth ≤ (addNewPlatform startX h rs).1.width ∧
      (addNewPlatform startX h rs).1.width < maxPlatformWidth ∧
      h * 0.3 ≤ (addNewPlatform startX h rs).1.y ∧
      (addNewPlatform startX h rs).1.y ≤ h * 0.7) ∧
    (∀ (h : ℚ) (n : ℕ) (nextX : ℚ) (rs : List ℚ), Bounded rs →
      chainedFrom nextX (genLoop h nextX n rs).1) ∧
    (∀ (w h : ℚ) (rs : List ℚ), (generateInitialPlatforms w h rs).1 =
      { x := 0, y := h - 50, width := w * 2, height := 50 } ::
        (genLoop h w 10 rs).1) ∧
    (∀ (g : EGame) (rs : List ℚ) (g' : EGame) (rs' : List ℚ), Bounded rs →
      updatePlatforms g rs = some (g', rs') →
      g'.platforms = g.platforms.filter (keepPred g.cameraX) ∨
      ∃ lp gp, (g.platforms.filter (keepPred g.cameraX)).getLast? = some lp ∧
        minGapWidth ≤ gp ∧ gp < maxGapWidth ∧
        g'.platforms = g.platforms.filter (keepPred g.cameraX) ++
          [(addNewPlatform (lp.x + lp.width + gp) g.canvasH
            (randomBetween minGapWidth maxGapWidth rs).2).1]) := by
  refine ⟨?_, fun h n nextX rs hrs => genLoop_chained h n nextX rs hrs,
    fun w h rs => rfl, ?_⟩
  · intro startX h rs hrs hh
    have hs := @addNewPlatform_spec startX h rs hrs hh
    exact ⟨hs.1, hs.2.1, hs.2.2.1, hs.2.2.2.1, hs.2.2.2.2.1, hs.2.2.2.2.2.1⟩
  · intro g rs g' rs' hrs h
    have hgap := randomBetween_spec (a := minGapWidth) (b := maxGapWidth)
      hrs (by norm_num [minGapWidth, maxGapWidth])
    have hlt := randomBetween_lt (a := minGapWidth) (b := maxGapWidth)
      hrs (by norm_num [minGapWidth, maxGapWidth])
    simp only [updatePlatforms] at h
    cases hL : (g.platforms.filter (keepPred g.cameraX)).getLast? with
    | none =>
      rw [hL] at h
      simp at h
    | some lp =>
      rw [hL] at h
      dsimp only at h
      by_cases hc : lp.x + lp.width < g.cameraX + g.canvasW + 500
      · rw [if_pos hc] at h
        simp only [Option.some.injEq, Prod.mk.injEq] at h
        obtain ⟨hg, _⟩ := h
        subst hg
        exact Or.inr ⟨lp, (randomBetween minGapWidth maxGapWidth rs).1,
          rfl, hgap.1, hlt, rfl⟩
      · rw [if_neg hc] at h
        simp only [Option.some.injEq, Prod.mk.injEq] at h
        obtain ⟨hg, _⟩ := h
        subst hg
        exact Or.inl rfl

/-- Counterexample for C3 as stated: the first platform pushed by the
initial generation is the ground platform, whose height is 50, not
`platformHeight = 20`. -/
theorem spec_C3_cex :
    ((generateInitialPlatforms 800 600 []).1.headD dummyPlatform).height = 50 ∧
    (50 : ℚ) ≠ platformHeight ∧
    (generateInitialPlatforms 800 600 []).1 ≠ [] := by
  refine ⟨rfl, by norm_num [platformHeight], by simp [generateInitialPlatforms]⟩

/-- Witness for C3 (amended): a concrete `addNewPlatform` call and a
concrete two-iteration generation loop. -/
theorem spec_C3_witness :
    ((addNewPlatform 800 600 []).1.x = 800 ∧
      (addNewPlatform 800 600 []).1.height = platformHeight ∧
      minPlatformWidth ≤ (addNewPlatform 800 600 []).1.width ∧
      (addNewPlatform 800 600 []).1.width < maxPlatformWidth ∧
      (600 : ℚ) * 0.3 ≤ (addNewPlatform 800 600 []).1.y ∧
      (addNewPlatform 800 600 []).1.y ≤ (600 : ℚ) * 0.7) ∧
    chainedFrom 800 (genLoop 600 800 2 []).1 :=
  ⟨spec_C3_generation.1 800 600 [] (by simp [Bounded]) (by norm_num),
   spec_C3_generation.2.1 600 2 800 [] (by simp [Bounded])⟩

/-- C4: in the endless variant the platform list is never empty along any
run: the constructor state satisfies the inductive invariant
`EndlessInv` (whose first component is non-emptiness) whenever the canvas
is positively wide, and every per-frame update from an invariant state
succeeds (the retention filter never discards the last platform, because
the camera advances by at most `playerSpeed = 5` per frame while
generation keeps the last platform's right edge in reach) and yields an
invariant — hence non-empty — state; this covers `updatePlatforms` and
`resetGame` alike. -/
theorem spec_C4_platforms_nonempty :
    (∀ (w h : ℚ) (rs : List ℚ), 0 < w → Bounded rs →
      EndlessInv (initEGame w h rs).1 ∧ (initEGame w h rs).1.platforms ≠ []) ∧
    (∀ (inp : Input) (g : EGame) (rs : List ℚ), EndlessInv g → Bounded rs →
      ∃ g' rs', update inp g rs = some (g', rs') ∧ EndlessInv g' ∧
        g'.platforms ≠ []) := by
  constructor
  · intro w h rs hw hrs
    have h1 := initEGame_inv w h rs hw hrs
    exact ⟨h1, h1.1⟩
  · intro inp g rs hinv hrs
    obtain ⟨g', rs', h1, h2⟩ := update_preserves_inv inp g rs hinv hrs
    exact ⟨g', rs', h1, h2, h2.1⟩

/-- Witness for C4: the constructor state on an 800 × 600 canvas
satisfies the invariant and its update frame succeeds into an invariant
state. -/
theorem spec_C4_witness :
    EndlessInv (initEGame 800 600 []).1 ∧
    ∃ g' rs', update noInput (initEGame 800 600 []).1 [] = some (g', rs') ∧
      EndlessInv g' ∧ g'.platforms ≠ [] := by
  have hB : Bounded [] := by simp [Bounded]
  have h1 := spec_C4_platforms_nonempty.1 800 600 [] (by norm_num) hB
  exact ⟨h1.1, spec_C4_platforms_nonempty.2 noInput
    (initEGame 800 600 []).1 [] h1.1 hB⟩
